import Mathlib

/-!
Verification development for the `container` Go package: a shallow embedding
of the IoC container (registry, binding lifecycle, invoker, qualifier
resolution, struct-field injection) together with theorems settling the
specification claims.

Modelling conventions:
* Go strings are lists of characters (`GoStr`).
* `reflect.Type` identities are abstract numeric `TypeKey`s.
* Go `interface{}` values are `Value := Option Nat`; `none` is the nil
  interface.
* Go maps are association lists; a missing key is `none`, an existing key
  with an empty inner map is `some []` (this distinction matters: the code
  distinguishes a nil map from an empty one).
* A resolver function is modelled by its declared parameter types, declared
  output types, an identifier (used to record invocations in a trace), and a
  body mapping argument values to returned output slots.
* Run-time panics (the source panics in `getBinding`, on `reflect.Type.Out`
  out of range, and on `reflect.Value.Set` with a zero `Value`) are explicit
  `Exec.panicked` outcomes; recursion is bounded by fuel, with exhaustion a
  distinct `Exec.fuelOut` outcome.
-/

namespace Cntr

/-- Go strings are modelled as lists of characters. -/
abbrev GoStr := List Char

/-- Model of the whitespace test used by strings.TrimSpace, restricted to the
ASCII whitespace characters (space, tab, newline, vertical tab, form feed,
carriage return). -/
def isSpc (c : Char) : Bool :=
  c = ' ' || c = '\t' || c = '\n' || c = '\r' || c.toNat = 11 || c.toNat = 12

/-- Leading-whitespace half of strings.TrimSpace. -/
def ltrim (s : GoStr) : GoStr := s.dropWhile isSpc

/-- Trailing-whitespace half of strings.TrimSpace. -/
def rtrim : GoStr → GoStr
  | [] => []
  | c :: cs =>
    match rtrim cs with
    | [] => if isSpc c then [] else [c]
    | r => c :: r

/-- Model of strings.TrimSpace: drop leading and trailing whitespace. -/
def trimS (s : GoStr) : GoStr := rtrim (ltrim s)

/-- Helper for strings.Split(s, ","): the first comma-separated segment paired
with the remaining segments. -/
def splitAux : GoStr → GoStr × List GoStr
  | [] => ([], [])
  | c :: cs =>
    let p := splitAux cs
    if c = ',' then ([], p.1 :: p.2) else (c :: p.1, p.2)

/-- Model of strings.Split(s, ","): always returns at least one segment. -/
def splitComma (s : GoStr) : List GoStr := (splitAux s).1 :: (splitAux s).2

/-- Loop body of `toNames` (must.go lines 100-111): trim the segment, skip it
if empty, append the default qualifier if it is the literal "type", and append
it verbatim otherwise. -/
def toNamesStep (out : List GoStr) (seg : GoStr) : List GoStr :=
  let t := trimS seg
  if t.length = 0 then out
  else if t = "type".toList then out ++ [[]]
  else out ++ [t]

/-- Model of `toNames` (must.go lines 92-114): expand a raw qualifier string
into the ordered candidate list used by lookups.  An empty source yields the
default qualifier; otherwise the whole string is trimmed, split on commas, and
the loop body is folded over the segments. -/
def toNames (src : GoStr) : List GoStr :=
  if src.length = 0 then [[]]
  else (splitComma (trimS src)).foldl toNamesStep []

/-- Per-segment interpretation used to state the spec-side qualifier
expansion: trim the segment, drop it if empty, map the literal "type" to the
default (empty) qualifier, and keep anything else verbatim. -/
def segName (seg : GoStr) : Option GoStr :=
  let t := trimS seg
  if t.length = 0 then none
  else if t = "type".toList then some []
  else some t

/-- Definition written from the specification's words (§4.3), for the
refinement claim C6: an empty input yields `[""]`; a non-empty input is split
on commas, each segment trimmed, the literal segment "type" becomes the empty
default qualifier, segments empty after trimming are dropped, and every other
segment appears verbatim in input order. -/
def expandQualifierSpec (raw : GoStr) : List GoStr :=
  if raw = [] then [[]]
  else (splitComma raw).filterMap segName

/-- Abstract identity of a reflect.Type. -/
abbrev TypeKey := Nat

/-- Go interface{} value; `none` is the nil interface. -/
abbrev Value := Option Nat

/-- Error taxonomy: one constructor per distinct error message the source
constructs, plus `userErr` for errors produced by caller-supplied resolver
bodies. -/
inductive Err where
  | resolverNotFunc
  | invalidSignature
  | alreadyExists (t : TypeKey) (name : GoStr)
  | noBindingFound (t : TypeKey)
  | invalidFunction
  | invalidReceiver
  | invalidAbstraction
  | noConcreteFound (t : TypeKey)
  | invalidStructure
  | cannotMakeField (field : GoStr) (t : TypeKey) (names : List GoStr)
  | userErr (n : Nat)
  deriving DecidableEq

/-- Causes of run-time panics reachable in the modelled code: the explicit
panic in `getBinding`, `reflect.Type.Out(0)` on a zero-output function,
`reflect.Value.Set` with the zero `Value` obtained from a nil instance,
assignment to an entry of a nil map, and the panic in `LoadOption`. -/
inductive PanicCause where
  | noBindingFor (t : TypeKey)
  | outOfRange
  | setZeroValue
  | nilMapWrite
  | optionFuncErr (e : Err)
  deriving DecidableEq

/-- Outcome of executing a modelled operation: a normal Go return value, a
run-time panic, or exhaustion of the recursion fuel. -/
inductive Exec (α : Type) where
  | ok (a : α)
  | panicked (c : PanicCause)
  | fuelOut

/-- Modelled from the spec: the `BindType` enumeration (`singletonType`,
`delaySingletonType`, `transientType`) is referenced throughout container.go
but its declaration is not among the provided sources; the spec's lifecycle
set {Singleton, LazySingleton, Transient} fixes it as this three-valued
enumeration. -/
inductive BindType where
  | singletonType
  | delaySingletonType
  | transientType
  deriving DecidableEq

/-- One output slot of a called function: `value` is what `Interface()`
yields, and `asError` is the result of the `.(error)` type assertion on it
(`some e` exactly when the runtime value is a non-nil error). -/
structure Slot where
  value : Value
  asError : Option Err
  deriving DecidableEq

/-- Model of a Go function value used as a resolver or receiver: its declared
parameter types (`NumIn`/`In i`), declared output types (`NumOut`/`Out i`), an
identifier recorded in the call trace when `reflect.Value.Call` executes it,
and a body mapping argument values to the returned output slots. -/
structure Resolver where
  id : Nat
  inTypes : List TypeKey
  outs : List TypeKey
  body : List Value → List Slot

/-- Model of the `binding` struct: lifecycle, resolver, and the cached
concrete (nil when absent). -/
structure Binding where
  bindType : BindType
  resolver : Resolver
  concrete : Value

/-- Inner qualifier map `map[string]*binding` of the container. -/
abbrev QMap := List (GoStr × Binding)

/-- The `Container` type `map[reflect.Type]map[string]*binding`; a missing
type key models a nil inner map, a present key with `[]` models an allocated
empty inner map. -/
abbrev Ctr := List (TypeKey × QMap)

/-- Execution state threaded through the operations: the container and the
trace of function identifiers executed by `reflect.Value.Call`, in order. -/
structure St where
  ctr : Ctr
  calls : List Nat

/-- Model of the `Option` struct of option.go. -/
structure Opt where
  name : GoStr
  delay : Bool

/-- Read of the inner map: Go `src[name]`. -/
def lookupName : QMap → GoStr → Option Binding
  | [], _ => none
  | (k, b) :: rest, n => if k = n then some b else lookupName rest n

/-- Read of the outer map: Go `c[t]`; `none` models a nil inner map. -/
def lookupType : Ctr → TypeKey → Option QMap
  | [], _ => none
  | (k, m) :: rest, t => if k = t then some m else lookupType rest t

/-- Keyed write on the inner map: Go `m[n] = b`. -/
def setName (m : QMap) (n : GoStr) (b : Binding) : QMap :=
  match m with
  | [] => [(n, b)]
  | (k, b') :: rest => if k = n then (k, b) :: rest else (k, b') :: setName rest n b

/-- Keyed write on the outer map: Go `c[t] = m`. -/
def setType (c : Ctr) (t : TypeKey) (m : QMap) : Ctr :=
  match c with
  | [] => [(t, m)]
  | (k, m') :: rest => if k = t then (k, m) :: rest else (k, m') :: setType rest t m

/-- Write of `b.concrete = v` through the binding pointer stored at slot
`(t, q)` of the container (a no-op if the slot is absent, which no reachable
execution produces: callers obtain the slot from `getBinding`, and no
resolution path removes entries). -/
def setConcrete (c : Ctr) (t : TypeKey) (q : GoStr) (v : Value) : Ctr :=
  match lookupType c t with
  | none => c
  | some m =>
    match lookupName m q with
    | none => c
    | some b => setType c t (setName m q { b with concrete := v })

/-- Result of `Container.getBinding`: the source panics when the type has no
entry at all, otherwise returns the first binding matching a candidate name
together with `found`.  The qualifier under which the binding was found
models the identity of the returned `*binding` pointer. -/
inductive GetB where
  | panicked (t : TypeKey)
  | found (q : GoStr) (b : Binding)
  | notFound

/-- First candidate name that hits in the inner map (the loop of
container.go lines 138-142). -/
def firstMatch (src : QMap) : List GoStr → Option (GoStr × Binding)
  | [] => none
  | n :: rest =>
    match lookupName src n with
    | some b => some (n, b)
    | none => firstMatch src rest

/-- Model of `Container.getBinding` (container.go lines 132-145): panics when
`c[t]` is nil, otherwise scans the candidate names in order. -/
def getBinding (c : Ctr) (t : TypeKey) (names : List GoStr) : GetB :=
  match lookupType c t with
  | none => .panicked t
  | some src =>
    match firstMatch src names with
    | some (n, b) => .found n b
    | none => .notFound

mutual

/-- Model of `Container.invoke` (container.go lines 89-107): resolve the
arguments, execute the function (recording its identifier in the trace), and
interpret the returned values: one value is returned as-is with no error, a
second value that is a non-nil error is paired with the first, and any other
arity is the invalid-signature error. -/
def invoke (fuel : Nat) (st : St) (f : Resolver) (opt : Opt) :
    Exec ((Value × Option Err) × St) :=
  match fuel with
  | 0 => .fuelOut
  | fuel' + 1 =>
    match argsLoop fuel' st f.inTypes opt with
    | .panicked c => .panicked c
    | .fuelOut => .fuelOut
    | .ok (.error e, st1) => .ok ((none, some e), st1)
    | .ok (.ok args, st1) =>
      let st2 : St := ⟨st1.ctr, st1.calls ++ [f.id]⟩
      match f.body args with
      | [v0] => .ok ((v0.value, none), st2)
      | [v0, v1] =>
        match v1.asError with
        | some e => .ok ((v0.value, some e), st2)
        | none => .ok ((v0.value, none), st2)
      | _ => .ok ((none, some .invalidSignature), st2)

/-- Model of `Container.arguments` (container.go lines 110-130): resolve each
parameter type in order via `getBinding` (with candidates from `toNames`) and
`make`, aborting at the first failure. -/
def argsLoop (fuel : Nat) (st : St) (ts : List TypeKey) (opt : Opt) :
    Exec (Except Err (List Value) × St) :=
  match fuel with
  | 0 => .fuelOut
  | fuel' + 1 =>
    match ts with
    | [] => .ok (.ok [], st)
    | t :: rest =>
      match getBinding st.ctr t (toNames opt.name) with
      | .panicked t' => .panicked (.noBindingFor t')
      | .notFound => .ok (.error (.noBindingFound t), st)
      | .found q b =>
        match make fuel' st b t q opt with
        | .panicked c => .panicked c
        | .fuelOut => .fuelOut
        | .ok ((_, some e), st1) => .ok (.error e, st1)
        | .ok ((v, none), st1) =>
          match argsLoop fuel' st1 rest opt with
          | .panicked c => .panicked c
          | .fuelOut => .fuelOut
          | .ok (.error e, st2) => .ok (.error e, st2)
          | .ok (.ok vs, st2) => .ok (.ok (v :: vs), st2)

/-- Model of `binding.make` (container.go lines 22-37) on the binding read
from slot `(t, q)`: return the cache when set; for a delayed singleton invoke
the resolver and write `b.concrete` with the returned value — the Go multiple
assignment `b.concrete, err = c.invoke(...)` writes the value even when the
error is non-nil — then fail or return it; otherwise pass the invocation
result through without caching. -/
def make (fuel : Nat) (st : St) (b : Binding) (t : TypeKey) (q : GoStr)
    (opt : Opt) : Exec ((Value × Option Err) × St) :=
  match fuel with
  | 0 => .fuelOut
  | fuel' + 1 =>
    match b.concrete with
    | some x => .ok ((some x, none), st)
    | none =>
      if b.bindType = .delaySingletonType then
        match invoke fuel' st b.resolver opt with
        | .panicked c => .panicked c
        | .fuelOut => .fuelOut
        | .ok ((v, e?), st1) =>
          let st2 : St := ⟨setConcrete st1.ctr t q v, st1.calls⟩
          match e? with
          | some e => .ok ((none, some e), st2)
          | none => .ok ((v, none), st2)
      else
        invoke fuel' st b.resolver opt

end

/-- Argument of `bind`/`Singleton`/... : either a function value or a
non-function value (whose `reflect.Kind` is not `Func`). -/
inductive ResolverArg where
  | fn (r : Resolver)
  | notFn

/-- The duplicate check and store of `bind` (container.go lines 73-84):
`Out(0)` panics on a zero-output function; writing into a nil inner map
panics; an occupied slot yields the already-exists error (with the empty
qualifier displayed as "type"); otherwise the binding is stored. -/
def bindStore (st : St) (r : Resolver) (bt : BindType) (opt : Opt)
    (concrete : Value) : Exec (Option Err × St) :=
  match r.outs with
  | [] => .panicked .outOfRange
  | t0 :: _ =>
    match lookupType st.ctr t0 with
    | none => .panicked .nilMapWrite
    | some m =>
      match lookupName m opt.name with
      | some _ =>
        .ok (some (.alreadyExists t0
          (if opt.name = [] then "type".toList else opt.name)), st)
      | none =>
        .ok (none, ⟨setType st.ctr t0 (setName m opt.name ⟨bt, r, concrete⟩),
          st.calls⟩)

/-- Model of `Container.bind` (container.go lines 50-85): reject non-function
resolvers; allocate an empty inner map for the output type when absent (this
happens before anything else and is never rolled back); for the eager
singleton lifecycle invoke the resolver immediately, propagating its error;
then perform the duplicate check and store. -/
def bind (fuel : Nat) (st : St) (arg : ResolverArg) (bt : BindType)
    (opt : Opt) : Exec (Option Err × St) :=
  match arg with
  | .notFn => .ok (some .resolverNotFunc, st)
  | .fn r =>
    let st1 : St :=
      match r.outs with
      | [] => st
      | t0 :: _ =>
        match lookupType st.ctr t0 with
        | some _ => st
        | none => ⟨setType st.ctr t0 [], st.calls⟩
    match bt with
    | .singletonType =>
      match invoke fuel st1 r opt with
      | .panicked c => .panicked c
      | .fuelOut => .fuelOut
      | .ok ((_, some e), st2) => .ok (some e, st2)
      | .ok ((v, none), st2) => bindStore st2 r bt opt v
    | _ => bindStore st1 r bt opt none

/-- What an OptionFunc supplied by an external package can do: `Option`'s
fields are unexported and the `SetName`/`SetDelay` constructors are commented
out in option.go, so an external function can only leave the options
unchanged or return an error (which `LoadOption` turns into a panic). -/
inductive ExtOptionFunc where
  | noop
  | failWith (e : Err)

/-- Model of `defaultOption` (option.go lines 60-65): empty name, delayed
creation. -/
def defaultOption : Opt := ⟨[], true⟩

/-- The loop of `LoadOption` (option.go lines 67-75). -/
def loadLoop : List ExtOptionFunc → Opt → Exec Opt
  | [], o => .ok o
  | .noop :: rest, o => loadLoop rest o
  | .failWith e :: _, _ => .panicked (.optionFuncErr e)

/-- Model of `LoadOption`: start from the defaults and apply each option
function, panicking on the first error. -/
def LoadOption (fs : List ExtOptionFunc) : Exec Opt :=
  loadLoop fs defaultOption

/-- Model of `Container.singleton` (container.go lines 154-160). -/
def singleton (fuel : Nat) (st : St) (arg : ResolverArg) (opt : Opt) :
    Exec (Option Err × St) :=
  if opt.delay then bind fuel st arg .delaySingletonType opt
  else bind fuel st arg .singletonType opt

/-- Model of `Container.Singleton` (container.go lines 165-168). -/
def Singleton (fuel : Nat) (st : St) (arg : ResolverArg)
    (fs : List ExtOptionFunc) : Exec (Option Err × St) :=
  match LoadOption fs with
  | .panicked c => .panicked c
  | .fuelOut => .fuelOut
  | .ok o => singleton fuel st arg o

/-- Model of `Container.NamedSingleton` (container.go lines 171-175). -/
def NamedSingleton (fuel : Nat) (st : St) (name : GoStr) (arg : ResolverArg)
    (fs : List ExtOptionFunc) : Exec (Option Err × St) :=
  match LoadOption fs with
  | .panicked c => .panicked c
  | .fuelOut => .fuelOut
  | .ok o => singleton fuel st arg { o with name := name }

/-- Argument of `resolve`: a pointer to a slot of some abstract type, a
non-pointer value, or a nil interface. -/
inductive AbsArg where
  | ptrTo (t : TypeKey)
  | notPtr
  | nilAbs

/-- Model of `Container.resolve` (container.go lines 227-249): for a pointer
target look the element type up and `make` it; on success the instance is
assigned through the pointer (`reflect.Value.Set` panics when the instance is
nil); a `make` error is returned unchanged and nothing is assigned.  The
second result component records the value assigned through the pointer. -/
def resolve (fuel : Nat) (st : St) (a : AbsArg) (opt : Opt) :
    Exec ((Option Err × Option Nat) × St) :=
  match a with
  | .nilAbs => .ok ((some .invalidAbstraction, none), st)
  | .notPtr => .ok ((some .invalidAbstraction, none), st)
  | .ptrTo elem =>
    match getBinding st.ctr elem (toNames opt.name) with
    | .panicked t => .panicked (.noBindingFor t)
    | .notFound => .ok ((some (.noConcreteFound elem), none), st)
    | .found q b =>
      match make fuel st b elem q opt with
      | .panicked c => .panicked c
      | .fuelOut => .fuelOut
      | .ok ((_, some e), st1) => .ok ((some e, none), st1)
      | .ok ((v, none), st1) =>
        match v with
        | none => .panicked .setZeroValue
        | some x => .ok ((none, some x), st1)

/-- Model of `Container.Resolve` (container.go lines 252-255). -/
def Resolve (fuel : Nat) (st : St) (a : AbsArg) (fs : List ExtOptionFunc) :
    Exec ((Option Err × Option Nat) × St) :=
  match LoadOption fs with
  | .panicked c => .panicked c
  | .fuelOut => .fuelOut
  | .ok o => resolve fuel st a o

/-- Argument of `Call`: a function, a non-function value, or nil. -/
inductive FnArg where
  | fn (r : Resolver)
  | notFn
  | nilFn

/-- Model of `Container.Call` (container.go lines 198-224): reject nil or
non-function receivers, resolve the arguments, execute the receiver, and
interpret its results: zero results succeed; one nil result succeeds; one
non-nil error result is returned; anything else is the invalid-receiver
error. -/
def Call (fuel : Nat) (st : St) (f : FnArg) (fs : List ExtOptionFunc) :
    Exec (Option Err × St) :=
  match f with
  | .nilFn => .ok (some .invalidFunction, st)
  | .notFn => .ok (some .invalidFunction, st)
  | .fn r =>
    match LoadOption fs with
    | .panicked c => .panicked c
    | .fuelOut => .fuelOut
    | .ok opt =>
      match argsLoop fuel st r.inTypes opt with
      | .panicked c => .panicked c
      | .fuelOut => .fuelOut
      | .ok (.error e, st1) => .ok (some e, st1)
      | .ok (.ok args, st1) =>
        let st2 : St := ⟨st1.ctr, st1.calls ++ [r.id]⟩
        match r.body args with
        | [] => .ok (none, st2)
        | [v0] =>
          if v0.value = none then .ok (none, st2)
          else
            match v0.asError with
            | some e => .ok (some e, st2)
            | none => .ok (some .invalidReceiver, st2)
        | _ => .ok (some .invalidReceiver, st2)

/-- One field of the struct passed to `Fill`: its declared name, declared
type, the value of the `container` tag when present, and its current value. -/
structure FieldSpec where
  fname : GoStr
  ftype : TypeKey
  tag : Option GoStr
  value : Value

/-- Candidate qualifiers for one tagged field (container.go lines 285-301):
the tag is split on commas (without trimming and without dropping empty
segments); "type" maps to the default qualifier, "name" to the field's own
name, anything else is verbatim. -/
def fillNames (fieldName : GoStr) (tag : GoStr) : List GoStr :=
  let subTs := splitComma tag
  if subTs.length = 0 then [[]]
  else
    subTs.map (fun s =>
      if s = "type".toList then []
      else if s = "name".toList then fieldName
      else s)

/-- The field loop of `Container.Fill` (container.go lines 278-315): skip
untagged fields; for a tagged field look its type up with the tag's
candidates — a missing match returns the cannot-make error naming the field
and all candidates, leaving this and all later fields untouched; on a match
`make` is invoked with a fresh default option and its error is discarded
(the returned instance is assigned even in that case, and a nil instance
makes `reflect.Value.Set` panic). -/
def fillLoop (fuel : Nat) : St → List FieldSpec →
    Exec ((Option Err × List FieldSpec) × St)
  | st, [] => .ok ((none, []), st)
  | st, f :: rest =>
    match f.tag with
    | none =>
      match fillLoop fuel st rest with
      | .panicked c => .panicked c
      | .fuelOut => .fuelOut
      | .ok ((e, rest'), st1) => .ok ((e, f :: rest'), st1)
    | some tg =>
      let names := fillNames f.fname tg
      match getBinding st.ctr f.ftype names with
      | .panicked t => .panicked (.noBindingFor t)
      | .notFound =>
        .ok ((some (.cannotMakeField f.fname f.ftype names), f :: rest), st)
      | .found q b =>
        match make fuel st b f.ftype q defaultOption with
        | .panicked c => .panicked c
        | .fuelOut => .fuelOut
        | .ok ((v, _), st1) =>
          match v with
          | none => .panicked .setZeroValue
          | some x =>
            match fillLoop fuel st1 rest with
            | .panicked c => .panicked c
            | .fuelOut => .fuelOut
            | .ok ((e, rest'), st2) =>
              .ok ((e, { f with value := some x } :: rest'), st2)

/-- Argument of `Fill`: a pointer to a struct (given by its fields), a
pointer to a non-struct, a non-pointer, or nil. -/
inductive FillArg where
  | ptrStruct (fields : List FieldSpec)
  | ptrNonStruct
  | notPtr
  | nilStruct

/-- Model of `Container.Fill` (container.go lines 265-322): anything but a
pointer to a struct is the invalid-structure error; otherwise run the field
loop.  The resulting field list carries the assignments performed before any
failure (assignments are through unsafe pointers into the caller's struct and
are not rolled back). -/
def Fill (fuel : Nat) (st : St) (a : FillArg) :
    Exec ((Option Err × Option (List FieldSpec)) × St) :=
  match a with
  | .nilStruct => .ok ((some .invalidStructure, none), st)
  | .ptrStruct fields =>
    match fillLoop fuel st fields with
    | .panicked c => .panicked c
    | .fuelOut => .fuelOut
    | .ok ((e, fields'), st1) => .ok ((e, some fields'), st1)
  | .ptrNonStruct => .ok ((some .invalidStructure, none), st)
  | .notPtr => .ok ((some .invalidStructure, none), st)

/-! Lemmas about the string helpers, building to the qualifier-expansion
refinement (claim C6): the outer TrimSpace in `toNames` only affects the
leading whitespace of the first segment and the trailing whitespace of the
last segment, both of which the per-segment trim removes anyway. -/

theorem ltrim_idem (s : GoStr) : ltrim (ltrim s) = ltrim s := by
  induction s with
  | nil => rfl
  | cons c cs ih =>
    by_cases h : isSpc c
    · simp only [ltrim, List.dropWhile_cons, h, if_true] at *
      exact ih
    · simp only [ltrim, List.dropWhile_cons, h, if_false, Bool.false_eq_true]

theorem rtrim_cons_nil {cs : GoStr} (c : Char) (h : rtrim cs = []) :
    rtrim (c :: cs) = if isSpc c then [] else [c] := by
  simp only [rtrim, h]

theorem rtrim_cons_ne {cs : GoStr} (c : Char) {d : Char} {r : GoStr}
    (h : rtrim cs = d :: r) : rtrim (c :: cs) = c :: d :: r := by
  simp only [rtrim, h]

theorem rtrim_eq_nil_iff (s : GoStr) : rtrim s = [] ↔ ∀ c ∈ s, isSpc c := by
  induction s with
  | nil => simp [rtrim]
  | cons c cs ih =>
    cases h : rtrim cs with
    | nil =>
      rw [rtrim_cons_nil c h]
      have hcs : ∀ x ∈ cs, isSpc x := ih.1 h
      by_cases hc : isSpc c
      · rw [if_pos hc]
        constructor
        · intro _ x hx
          rcases List.mem_cons.mp hx with h' | h'
          · subst h'; exact hc
          · exact hcs x h'
        · intro _; rfl
      · rw [if_neg hc]
        constructor
        · intro h'; cases h'
        · intro hall
          exact absurd (hall c (List.mem_cons_self c cs)) hc
    | cons d r =>
      rw [rtrim_cons_ne c h]
      constructor
      · intro hx; cases hx
      · intro hall
        have : rtrim cs = [] := ih.2 fun x hx => hall x (List.mem_cons_of_mem _ hx)
        rw [h] at this; cases this

theorem rtrim_idem (s : GoStr) : rtrim (rtrim s) = rtrim s := by
  induction s with
  | nil => rfl
  | cons c cs ih =>
    cases h : rtrim cs with
    | nil =>
      rw [rtrim_cons_nil c h]
      by_cases hc : isSpc c
      · simp [hc, rtrim]
      · simp [hc, rtrim]
    | cons d r =>
      rw [rtrim_cons_ne c h]
      rw [h] at ih
      exact rtrim_cons_ne c ih

theorem ltrim_all_spc {s : GoStr} (h : ∀ c ∈ s, isSpc c) : ltrim s = [] := by
  induction s with
  | nil => rfl
  | cons c cs ih =>
    have hc : isSpc c = true := h c (List.mem_cons_self c cs)
    simp only [ltrim, List.dropWhile_cons, hc, if_true]
    exact ih fun x hx => h x (List.mem_cons_of_mem _ hx)

theorem ltrim_rtrim (s : GoStr) : ltrim (rtrim s) = rtrim (ltrim s) := by
  induction s with
  | nil => rfl
  | cons c cs ih =>
    by_cases hc : isSpc c
    · have hl : ltrim (c :: cs) = ltrim cs := by
        simp only [ltrim, List.dropWhile_cons, hc, if_true]
      cases h : rtrim cs with
      | nil =>
        have hall : ∀ x ∈ cs, isSpc x := (rtrim_eq_nil_iff cs).1 h
        rw [rtrim_cons_nil c h, if_pos hc, hl, ltrim_all_spc hall]
        rfl
      | cons d r =>
        rw [rtrim_cons_ne c h, hl, ← ih, h]
        simp [ltrim, List.dropWhile_cons, hc]
    · have hl : ltrim (c :: cs) = c :: cs := by
        simp only [ltrim, List.dropWhile_cons, hc, if_false, Bool.false_eq_true]
      rw [hl]
      cases h : rtrim cs with
      | nil =>
        rw [rtrim_cons_nil c h, if_neg hc]
        simp [ltrim, List.dropWhile_cons, hc]
      | cons d r =>
        rw [rtrim_cons_ne c h]
        simp [ltrim, List.dropWhile_cons, hc]

theorem trimS_ltrim (s : GoStr) : trimS (ltrim s) = trimS s := by
  unfold trimS; rw [ltrim_idem]

theorem trimS_rtrim (s : GoStr) : trimS (rtrim s) = trimS s := by
  unfold trimS
  rw [← ltrim_rtrim, ← ltrim_rtrim, rtrim_idem]

theorem segName_ltrim (s : GoStr) : segName (ltrim s) = segName s := by
  simp only [segName, trimS_ltrim]

theorem segName_rtrim (s : GoStr) : segName (rtrim s) = segName s := by
  simp only [segName, trimS_rtrim]

theorem splitAux_ltrim (s : GoStr) :
    splitAux (ltrim s) = (ltrim (splitAux s).1, (splitAux s).2) := by
  induction s with
  | nil => rfl
  | cons c cs ih =>
    by_cases hc : isSpc c
    · have hne : ¬ c = ',' := by
        intro h; subst h; simp [isSpc] at hc
      have hl : ltrim (c :: cs) = ltrim cs := by
        simp only [ltrim, List.dropWhile_cons, hc, if_true]
      rw [hl, ih]
      simp only [splitAux, hne, if_false]
      have : ltrim (c :: (splitAux cs).1) = ltrim (splitAux cs).1 := by
        simp only [ltrim, List.dropWhile_cons, hc, if_true]
      simp [this]
    · have hl : ltrim (c :: cs) = c :: cs := by
        simp only [ltrim, List.dropWhile_cons, hc, if_false, Bool.false_eq_true]
      rw [hl]
      by_cases hcm : c = ','
      · subst hcm; simp [splitAux, ltrim]
      · simp only [splitAux, hcm, if_false]
        have : ltrim (c :: (splitAux cs).1) = c :: (splitAux cs).1 := by
          simp only [ltrim, List.dropWhile_cons, hc, if_false, Bool.false_eq_true]
        simp [this]

theorem splitComma_ltrim (s : GoStr) :
    splitComma (ltrim s) = ltrim (splitAux s).1 :: (splitAux s).2 := by
  simp [splitComma, splitAux_ltrim]

/-- Modify the last element of a segment list; used to relate splitting a
right-trimmed string to splitting the original. -/
def modLast (f : GoStr → GoStr) : List GoStr → List GoStr
  | [] => []
  | [x] => [f x]
  | x :: y :: t => x :: modLast f (y :: t)

theorem splitAux_snd_nil {s : GoStr} (h : (splitAux s).2 = []) :
    (splitAux s).1 = s := by
  induction s with
  | nil => rfl
  | cons c cs ih =>
    by_cases hc : c = ','
    · subst hc; simp [splitAux] at h
    · simp only [splitAux, hc, if_false] at h ⊢
      exact congrArg (c :: ·) (ih h)

theorem splitComma_rtrim (s : GoStr) :
    splitComma (rtrim s) = modLast rtrim (splitComma s) := by
  induction s with
  | nil => rfl
  | cons c cs ih =>
    cases hr : rtrim cs with
    | nil =>
      have hall : ∀ x ∈ cs, isSpc x := (rtrim_eq_nil_iff cs).1 hr
      have hnc : (splitAux cs).2 = [] := by
        by_contra hne
        cases hsn : (splitAux cs).2 with
        | nil => exact hne hsn
        | cons a b =>
          -- a comma must occur in cs, but every character is whitespace
          have : ',' ∈ cs := by
            clear hne ih hr
            induction cs with
            | nil => simp [splitAux] at hsn
            | cons d ds ihd =>
              by_cases hd : d = ','
              · subst hd; exact List.mem_cons_self _ _
              · simp only [splitAux, hd, if_false] at hsn
                exact List.mem_cons_of_mem _
                  (ihd (fun x hx => hall x (List.mem_cons_of_mem _ hx)) hsn)
          have := hall ',' this
          simp [isSpc] at this
      have h1 : (splitAux cs).1 = cs := splitAux_snd_nil hnc
      by_cases hc : c = ','
      · subst hc
        have hrt : rtrim (',' :: cs) = [','] := by
          rw [rtrim_cons_nil ',' hr]
          rfl
        rw [hrt]
        have rhs : splitComma (',' :: cs) = [[], cs] := by
          simp [splitComma, splitAux, hnc, h1]
        rw [rhs]
        have lhs : splitComma [','] = [[], []] := rfl
        rw [lhs]
        simp [modLast, hr]
      · by_cases hsp : isSpc c
        · have hcc : rtrim (c :: cs) = [] := by
            rw [rtrim_cons_nil c hr, if_pos hsp]
          rw [hcc]
          have rhs : splitComma (c :: cs) = [c :: cs] := by
            simp [splitComma, splitAux, hc, hnc, h1]
          rw [rhs]
          have lhs : splitComma [] = [[]] := rfl
          rw [lhs]
          simp [modLast, hcc]
        · have hcc : rtrim (c :: cs) = [c] := by
            rw [rtrim_cons_nil c hr, if_neg hsp]
          rw [hcc]
          have rhs : splitComma (c :: cs) = [c :: cs] := by
            simp [splitComma, splitAux, hc, hnc, h1]
          rw [rhs]
          have lhs : splitComma [c] = [[c]] := by
            simp [splitComma, splitAux, hc]
          rw [lhs]
          simp [modLast, hcc]
    | cons d r =>
      rw [rtrim_cons_ne c hr]
      by_cases hc : c = ','
      · subst hc
        have lhs : splitComma (',' :: d :: r) = [] :: splitComma (d :: r) := rfl
        have rhs : splitComma (',' :: cs) = [] :: splitComma cs := rfl
        rw [lhs, rhs, ← hr, ih]
        show [] :: modLast rtrim (splitComma cs)
          = modLast rtrim ([] :: splitComma cs)
        simp [splitComma, modLast]
      · have hlhs : splitComma (c :: d :: r)
            = (c :: (splitAux (d :: r)).1) :: (splitAux (d :: r)).2 := by
          simp [splitComma, splitAux, hc]
        have hrhs : splitComma (c :: cs)
            = (c :: (splitAux cs).1) :: (splitAux cs).2 := by
          simp [splitComma, splitAux, hc]
        rw [hlhs, hrhs]
        have ihr : splitComma (d :: r) = modLast rtrim (splitComma cs) := by
          rw [← hr]; exact ih
        cases hB : (splitAux cs).2 with
        | nil =>
          have h1 : (splitAux cs).1 = cs := splitAux_snd_nil hB
          have hthis : splitComma (d :: r) = [rtrim cs] := by
            rw [ihr]
            have hcs : splitComma cs = [cs] := by
              simp [splitComma, hB, h1]
            rw [hcs]
            rfl
          have heq : (splitAux (d :: r)).1 :: (splitAux (d :: r)).2
              = [rtrim cs] := hthis
          injection heq with e1 e2
          rw [e1, e2, h1]
          have hstep : rtrim (c :: cs) = c :: rtrim cs := by
            rw [rtrim_cons_ne c hr, hr]
          simp [modLast, hstep]
        | cons x t =>
          have hsc : splitComma cs = (splitAux cs).1 :: x :: t := by
            simp [splitComma, hB]
          have hthis : splitComma (d :: r)
              = (splitAux cs).1 :: modLast rtrim (x :: t) := by
            rw [ihr, hsc]
            rfl
          have heq : (splitAux (d :: r)).1 :: (splitAux (d :: r)).2
              = (splitAux cs).1 :: modLast rtrim (x :: t) := hthis
          injection heq with e1 e2
          rw [e1, e2]
          rfl

theorem filterMap_segName_modLast (l : List GoStr) :
    (modLast rtrim l).filterMap segName = l.filterMap segName := by
  induction l with
  | nil => rfl
  | cons x t ih =>
    cases t with
    | nil => simp [modLast, List.filterMap_cons, segName_rtrim]
    | cons y t' =>
      show (x :: modLast rtrim (y :: t')).filterMap segName
        = (x :: y :: t').filterMap segName
      simp only [List.filterMap_cons, ih]

theorem toNamesStep_eq (out : List GoStr) (seg : GoStr) :
    toNamesStep out seg
    = match segName seg with
      | none => out
      | some n => out ++ [n] := by
  simp only [toNamesStep, segName]
  split_ifs <;> rfl

theorem foldl_toNames_filterMap (l : List GoStr) (acc : List GoStr) :
    l.foldl toNamesStep acc = acc ++ l.filterMap segName := by
  induction l generalizing acc with
  | nil => simp
  | cons x l ih =>
    rw [List.foldl_cons, List.filterMap_cons, toNamesStep_eq]
    cases hs : segName x with
    | none => simp [ih]
    | some n => simp [ih, List.append_assoc]

/-- C6: `toNames` maps every input string to exactly the ordered candidate
list described by the specification's ExpandQualifier: the empty string yields
just the default qualifier, a non-empty string is split on commas, each
segment trimmed, the literal segment "type" becomes the empty default
qualifier, segments empty after trimming are dropped, and every other segment
appears verbatim in input order. -/
theorem C6_toNames_matches_spec (s : GoStr) : toNames s = expandQualifierSpec s := by
  unfold toNames expandQualifierSpec
  by_cases h : s = []
  · subst h; rfl
  · have hlen : ¬ s.length = 0 := by
      simpa [List.length_eq_zero] using h
    rw [if_neg hlen, if_neg h, foldl_toNames_filterMap, List.nil_append]
    unfold trimS
    rw [splitComma_rtrim, filterMap_segName_modLast, splitComma_ltrim]
    simp only [splitComma, List.filterMap_cons, segName_ltrim]

/-! Key-uniqueness machinery: the two-level association lists model Go maps,
so every reachable container has pairwise-distinct keys on both levels.  The
lemmas below show every operation preserves this. -/

/-- Well-formedness of the container as a model of a two-level Go map: keys
are unique on both levels. -/
def KeysOK (c : Ctr) : Prop :=
  (c.map Prod.fst).Nodup ∧ ∀ p ∈ c, (p.2.map Prod.fst).Nodup

theorem lookupType_mem {c : Ctr} {t : TypeKey} {m : QMap}
    (h : lookupType c t = some m) : (t, m) ∈ c := by
  induction c with
  | nil => cases h
  | cons p rest ih =>
    obtain ⟨k, m'⟩ := p
    by_cases hk : k = t
    · subst hk
      simp only [lookupType, if_pos rfl] at h
      injection h with h'
      subst h'
      exact List.mem_cons_self _ _
    · simp only [lookupType, if_neg hk] at h
      exact List.mem_cons_of_mem _ (ih h)

theorem lookupName_none_not_mem {m : QMap} {q : GoStr}
    (h : lookupName m q = none) : q ∉ m.map Prod.fst := by
  induction m with
  | nil => simp
  | cons p rest ih =>
    obtain ⟨k, b⟩ := p
    by_cases hk : k = q
    · subst hk; simp [lookupName] at h
    · simp only [lookupName, if_neg hk] at h
      simp only [List.map_cons, List.mem_cons]
      rintro (h' | h')
      · exact hk h'.symm
      · exact ih h h'

theorem lookupType_none_not_mem {c : Ctr} {t : TypeKey}
    (h : lookupType c t = none) : t ∉ c.map Prod.fst := by
  induction c with
  | nil => simp
  | cons p rest ih =>
    obtain ⟨k, m⟩ := p
    by_cases hk : k = t
    · subst hk; simp [lookupType] at h
    · simp only [lookupType, if_neg hk] at h
      simp only [List.map_cons, List.mem_cons]
      rintro (h' | h')
      · exact hk h'.symm
      · exact ih h h'

theorem setName_map_fst_some {m : QMap} {q : GoStr} {b : Binding}
    (h : lookupName m q = some b) (b' : Binding) :
    (setName m q b').map Prod.fst = m.map Prod.fst := by
  induction m with
  | nil => cases h
  | cons p rest ih =>
    obtain ⟨k, b0⟩ := p
    by_cases hk : k = q
    · subst hk
      simp [setName, lookupName] at h ⊢
    · simp only [lookupName, if_neg hk] at h
      simp [setName, hk, ih h]

theorem setName_map_fst_none {m : QMap} {q : GoStr}
    (h : lookupName m q = none) (b' : Binding) :
    (setName m q b').map Prod.fst = m.map Prod.fst ++ [q] := by
  induction m with
  | nil => simp [setName]
  | cons p rest ih =>
    obtain ⟨k, b0⟩ := p
    by_cases hk : k = q
    · subst hk; simp [lookupName] at h
    · simp only [lookupName, if_neg hk] at h
      simp [setName, hk, ih h]

theorem setType_map_fst_some {c : Ctr} {t : TypeKey} {m : QMap}
    (h : lookupType c t = some m) (m' : QMap) :
    (setType c t m').map Prod.fst = c.map Prod.fst := by
  induction c with
  | nil => cases h
  | cons p rest ih =>
    obtain ⟨k, m0⟩ := p
    by_cases hk : k = t
    · subst hk
      simp [setType, lookupType] at h ⊢
    · simp only [lookupType, if_neg hk] at h
      simp [setType, hk, ih h]

theorem setType_map_fst_none {c : Ctr} {t : TypeKey}
    (h : lookupType c t = none) (m' : QMap) :
    (setType c t m').map Prod.fst = c.map Prod.fst ++ [t] := by
  induction c with
  | nil => simp [setType]
  | cons p rest ih =>
    obtain ⟨k, m0⟩ := p
    by_cases hk : k = t
    · subst hk; simp [lookupType] at h
    · simp only [lookupType, if_neg hk] at h
      simp [setType, hk, ih h]

theorem setType_mem {c : Ctr} {t : TypeKey} {m' : QMap} {p : TypeKey × QMap}
    (h : p ∈ setType c t m') : p = (t, m') ∨ p ∈ c := by
  induction c with
  | nil =>
    left
    simpa [setType] using h
  | cons p0 rest ih =>
    obtain ⟨k, m0⟩ := p0
    by_cases hk : k = t
    · subst hk
      simp only [setType, if_pos rfl] at h
      rcases List.mem_cons.mp h with rfl | h
      · exact Or.inl rfl
      · exact Or.inr (List.mem_cons_of_mem _ h)
    · simp only [setType, if_neg hk] at h
      rcases List.mem_cons.mp h with rfl | h
      · exact Or.inr (List.mem_cons_self _ _)
      · rcases ih h with h' | h'
        · exact Or.inl h'
        · exact Or.inr (List.mem_cons_of_mem _ h')

theorem setName_mem {m : QMap} {q : GoStr} {b' : Binding} {p : GoStr × Binding}
    (h : p ∈ setName m q b') : p = (q, b') ∨ p ∈ m := by
  induction m with
  | nil =>
    left
    simpa [setName] using h
  | cons p0 rest ih =>
    obtain ⟨k, b0⟩ := p0
    by_cases hk : k = q
    · subst hk
      simp only [setName, if_pos rfl] at h
      rcases List.mem_cons.mp h with rfl | h
      · exact Or.inl rfl
      · exact Or.inr (List.mem_cons_of_mem _ h)
    · simp only [setName, if_neg hk] at h
      rcases List.mem_cons.mp h with rfl | h
      · exact Or.inr (List.mem_cons_self _ _)
      · rcases ih h with h' | h'
        · exact Or.inl h'
        · exact Or.inr (List.mem_cons_of_mem _ h')

theorem setConcrete_keysOK {c : Ctr} (hc : KeysOK c) (t : TypeKey) (q : GoStr)
    (v : Value) : KeysOK (setConcrete c t q v) := by
  cases hT : lookupType c t with
  | none =>
    simp only [setConcrete, hT]
    exact hc
  | some m =>
    cases hN : lookupName m q with
    | none =>
      simp only [setConcrete, hT, hN]
      exact hc
    | some b =>
      simp only [setConcrete, hT, hN]
      constructor
      · rw [setType_map_fst_some hT]
        exact hc.1
      · intro p hp
        rcases setType_mem hp with h | h
        · subst h
          rw [setName_map_fst_some hN]
          exact hc.2 (t, m) (lookupType_mem hT)
        · exact hc.2 p h

/-- The resolution engine only ever mutates the container through
`setConcrete`, so it preserves key-uniqueness on both levels. -/
theorem engine_keysOK : ∀ fuel : Nat,
    (∀ st f opt p st', invoke fuel st f opt = .ok (p, st')
      → KeysOK st.ctr → KeysOK st'.ctr)
    ∧ (∀ st ts opt p st', argsLoop fuel st ts opt = .ok (p, st')
      → KeysOK st.ctr → KeysOK st'.ctr)
    ∧ (∀ st b t q opt p st', make fuel st b t q opt = .ok (p, st')
      → KeysOK st.ctr → KeysOK st'.ctr) := by
  intro fuel
  induction fuel with
  | zero =>
    refine ⟨?_, ?_, ?_⟩
    · intro st f opt p st' h _
      simp [invoke] at h
    · intro st ts opt p st' h _
      simp [argsLoop] at h
    · intro st b t q opt p st' h _
      simp [make] at h
  | succ fuel' ih =>
    obtain ⟨ihI, ihA, ihM⟩ := ih
    refine ⟨?_, ?_, ?_⟩
    · intro st f opt p st' h hk
      simp only [invoke] at h
      cases hA : argsLoop fuel' st f.inTypes opt with
      | panicked c => rw [hA] at h; simp at h
      | fuelOut => rw [hA] at h; simp at h
      | ok q =>
        obtain ⟨res, st1⟩ := q
        have hk1 : KeysOK st1.ctr := ihA st f.inTypes opt res st1 hA hk
        rw [hA] at h
        cases res with
        | error e =>
          simp only [Exec.ok.injEq, Prod.mk.injEq] at h
          obtain ⟨-, rfl⟩ := h
          exact hk1
        | ok args =>
          simp only at h
          cases hB : f.body args with
          | nil =>
            rw [hB] at h
            simp only [Exec.ok.injEq, Prod.mk.injEq] at h
            obtain ⟨-, rfl⟩ := h
            exact hk1
          | cons v0 tl =>
            cases tl with
            | nil =>
              rw [hB] at h
              simp only [Exec.ok.injEq, Prod.mk.injEq] at h
              obtain ⟨-, rfl⟩ := h
              exact hk1
            | cons v1 tl2 =>
              cases tl2 with
              | nil =>
                rw [hB] at h
                dsimp only at h
                cases hE : v1.asError with
                | some e =>
                  rw [hE] at h
                  simp only [Exec.ok.injEq, Prod.mk.injEq] at h
                  obtain ⟨-, rfl⟩ := h
                  exact hk1
                | none =>
                  rw [hE] at h
                  simp only [Exec.ok.injEq, Prod.mk.injEq] at h
                  obtain ⟨-, rfl⟩ := h
                  exact hk1
              | cons v2 tl3 =>
                rw [hB] at h
                simp only [Exec.ok.injEq, Prod.mk.injEq] at h
                obtain ⟨-, rfl⟩ := h
                exact hk1
    · intro st ts opt p st' h hk
      simp only [argsLoop] at h
      cases ts with
      | nil =>
        simp only [Exec.ok.injEq, Prod.mk.injEq] at h
        obtain ⟨-, rfl⟩ := h
        exact hk
      | cons t rest =>
        dsimp only at h
        cases hG : getBinding st.ctr t (toNames opt.name) with
        | panicked t' => rw [hG] at h; simp at h
        | notFound =>
          rw [hG] at h
          simp only [Exec.ok.injEq, Prod.mk.injEq] at h
          obtain ⟨-, rfl⟩ := h
          exact hk
        | found q b =>
          rw [hG] at h
          dsimp only at h
          cases hM : make fuel' st b t q opt with
          | panicked c => rw [hM] at h; simp at h
          | fuelOut => rw [hM] at h; simp at h
          | ok mq =>
            obtain ⟨⟨v, e?⟩, st1⟩ := mq
            have hk1 : KeysOK st1.ctr := ihM st b t q opt (v, e?) st1 hM hk
            rw [hM] at h
            cases e? with
            | some e =>
              dsimp only at h
              simp only [Exec.ok.injEq, Prod.mk.injEq] at h
              obtain ⟨-, rfl⟩ := h
              exact hk1
            | none =>
              dsimp only at h
              cases hR : argsLoop fuel' st1 rest opt with
              | panicked c => rw [hR] at h; simp at h
              | fuelOut => rw [hR] at h; simp at h
              | ok rq =>
                obtain ⟨res2, st2⟩ := rq
                have hk2 : KeysOK st2.ctr := ihA st1 rest opt res2 st2 hR hk1
                rw [hR] at h
                cases res2 with
                | error e =>
                  simp only [Exec.ok.injEq, Prod.mk.injEq] at h
                  obtain ⟨-, rfl⟩ := h
                  exact hk2
                | ok vs =>
                  simp only [Exec.ok.injEq, Prod.mk.injEq] at h
                  obtain ⟨-, rfl⟩ := h
                  exact hk2
    · intro st b t q opt p st' h hk
      simp only [make] at h
      cases hC : b.concrete with
      | some x =>
        rw [hC] at h
        dsimp only at h
        simp only [Exec.ok.injEq, Prod.mk.injEq] at h
        obtain ⟨-, rfl⟩ := h
        exact hk
      | none =>
        rw [hC] at h
        dsimp only at h
        by_cases hD : b.bindType = BindType.delaySingletonType
        · rw [if_pos hD] at h
          cases hI : invoke fuel' st b.resolver opt with
          | panicked c => rw [hI] at h; simp at h
          | fuelOut => rw [hI] at h; simp at h
          | ok iq =>
            obtain ⟨⟨v, e?⟩, st1⟩ := iq
            have hk1 : KeysOK st1.ctr := ihI st b.resolver opt (v, e?) st1 hI hk
            rw [hI] at h
            dsimp only at h
            cases e? with
            | some e =>
              simp only [Exec.ok.injEq, Prod.mk.injEq] at h
              obtain ⟨-, rfl⟩ := h
              exact setConcrete_keysOK hk1 t q v
            | none =>
              simp only [Exec.ok.injEq, Prod.mk.injEq] at h
              obtain ⟨-, rfl⟩ := h
              exact setConcrete_keysOK hk1 t q v
        · rw [if_neg hD] at h
          exact ihI st b.resolver opt p st' h hk

theorem lookupType_setType_self (c : Ctr) (t : TypeKey) (m : QMap) :
    lookupType (setType c t m) t = some m := by
  induction c with
  | nil => simp [setType, lookupType]
  | cons p rest ih =>
    obtain ⟨k, m0⟩ := p
    by_cases hk : k = t
    · subst hk; simp [setType, lookupType]
    · simp [setType, lookupType, hk, ih]

theorem lookupName_setName_self (m : QMap) (q : GoStr) (b : Binding) :
    lookupName (setName m q b) q = some b := by
  induction m with
  | nil => simp [setName, lookupName]
  | cons p rest ih =>
    obtain ⟨k, b0⟩ := p
    by_cases hk : k = q
    · subst hk; simp [setName, lookupName]
    · simp [setName, lookupName, hk, ih]

theorem nodup_append_singleton {α : Type} {l : List α} {a : α}
    (h : l.Nodup) (ha : a ∉ l) : (l ++ [a]).Nodup := by
  induction l with
  | nil => simp
  | cons x rest ih =>
    rw [List.cons_append, List.nodup_cons]
    refine ⟨?_, ih h.of_cons fun hmem => ha (List.mem_cons_of_mem _ hmem)⟩
    rw [List.mem_append]
    rintro (hx | hx)
    · exact (List.nodup_cons.mp h).1 hx
    · have hax : x = a := by simpa using hx
      subst hax
      exact ha (List.mem_cons_self x rest)

/-- Registration preserves key-uniqueness of the two-level registry: the only
writes are the fresh empty inner map, the keyed store of a new binding, and
whatever cache writes the eager invocation performs. -/
theorem bind_keysOK {fuel : Nat} {st : St} {arg : ResolverArg} {bt : BindType}
    {opt : Opt} {e : Option Err} {st' : St} (hk : KeysOK st.ctr)
    (h : bind fuel st arg bt opt = .ok (e, st')) : KeysOK st'.ctr := by
  have hstore : ∀ st2 : St, KeysOK st2.ctr → ∀ r concrete,
      bindStore st2 r bt opt concrete = .ok (e, st') → KeysOK st'.ctr := by
    intro st2 hk2 r concrete hS
    cases hOuts : r.outs with
    | nil => rw [bindStore, hOuts] at hS; simp at hS
    | cons t0 ts =>
      rw [bindStore, hOuts] at hS
      dsimp only at hS
      cases hT : lookupType st2.ctr t0 with
      | none => rw [hT] at hS; simp at hS
      | some m =>
        rw [hT] at hS
        dsimp only at hS
        cases hN : lookupName m opt.name with
        | some b =>
          rw [hN] at hS
          simp only [Exec.ok.injEq, Prod.mk.injEq] at hS
          obtain ⟨-, rfl⟩ := hS
          exact hk2
        | none =>
          rw [hN] at hS
          simp only [Exec.ok.injEq, Prod.mk.injEq] at hS
          obtain ⟨-, rfl⟩ := hS
          constructor
          · rw [setType_map_fst_some hT]
            exact hk2.1
          · intro p hp
            rcases setType_mem hp with rfl | hmem
            · rw [setName_map_fst_none hN]
              exact nodup_append_singleton (hk2.2 (t0, m) (lookupType_mem hT))
                (lookupName_none_not_mem hN)
            · exact hk2.2 p hmem
  cases arg with
  | notFn =>
    simp only [bind, Exec.ok.injEq, Prod.mk.injEq] at h
    obtain ⟨-, rfl⟩ := h
    exact hk
  | fn r =>
    simp only [bind] at h
    have hk1 : KeysOK (match r.outs with
        | [] => st
        | t0 :: _ =>
          match lookupType st.ctr t0 with
          | some _ => st
          | none => (⟨setType st.ctr t0 [], st.calls⟩ : St)).ctr := by
      cases hOuts : r.outs with
      | nil => exact hk
      | cons t0 ts =>
        cases hT : lookupType st.ctr t0 with
        | some m => simp only [hT]; exact hk
        | none =>
          simp only [hT]
          constructor
          · rw [setType_map_fst_none hT]
            exact nodup_append_singleton hk.1 (lookupType_none_not_mem hT)
          · intro p hp
            rcases setType_mem hp with rfl | hmem
            · simp
            · exact hk.2 p hmem
    cases bt with
    | singletonType =>
      cases hI : invoke fuel _ r opt with
      | panicked c => rw [hI] at h; simp at h
      | fuelOut => rw [hI] at h; simp at h
      | ok iq =>
        obtain ⟨⟨v, e?⟩, st2⟩ := iq
        have hk2 : KeysOK st2.ctr := (engine_keysOK fuel).1 _ r opt (v, e?) st2 hI hk1
        rw [hI] at h
        dsimp only at h
        cases e? with
        | some e1 =>
          simp only [Exec.ok.injEq, Prod.mk.injEq] at h
          obtain ⟨-, rfl⟩ := h
          exact hk2
        | none => exact hstore st2 hk2 r v h
    | delaySingletonType => exact hstore _ hk1 r none h
    | transientType => exact hstore _ hk1 r none h

/-- An error-free `invoke` has executed the function: its identifier is the
last entry appended to the call trace. -/
theorem invoke_ok_appends {fuel : Nat} {st : St} {f : Resolver} {opt : Opt}
    {v : Value} {st' : St} (h : invoke fuel st f opt = .ok ((v, none), st')) :
    ∃ pre, st'.calls = pre ++ [f.id] := by
  cases fuel with
  | zero => simp [invoke] at h
  | succ fuel' =>
    simp only [invoke] at h
    cases hA : argsLoop fuel' st f.inTypes opt with
    | panicked c => rw [hA] at h; simp at h
    | fuelOut => rw [hA] at h; simp at h
    | ok q =>
      obtain ⟨res, st1⟩ := q
      rw [hA] at h
      cases res with
      | error e =>
        simp only [Exec.ok.injEq, Prod.mk.injEq] at h
        obtain ⟨⟨-, h2⟩, -⟩ := h
        cases h2
      | ok args =>
        dsimp only at h
        refine ⟨st1.calls, ?_⟩
        cases hB : f.body args with
        | nil =>
          rw [hB] at h
          simp only [Exec.ok.injEq, Prod.mk.injEq] at h
          obtain ⟨-, rfl⟩ := h
          rfl
        | cons v0 tl =>
          cases tl with
          | nil =>
            rw [hB] at h
            simp only [Exec.ok.injEq, Prod.mk.injEq] at h
            obtain ⟨-, rfl⟩ := h
            rfl
          | cons v1 tl2 =>
            cases tl2 with
            | nil =>
              rw [hB] at h
              dsimp only at h
              cases hE : v1.asError with
              | some e =>
                rw [hE] at h
                simp only [Exec.ok.injEq, Prod.mk.injEq] at h
                obtain ⟨⟨-, h2⟩, -⟩ := h
                cases h2
              | none =>
                rw [hE] at h
                simp only [Exec.ok.injEq, Prod.mk.injEq] at h
                obtain ⟨-, rfl⟩ := h
                rfl
            | cons v2 tl3 =>
              rw [hB] at h
              simp only [Exec.ok.injEq, Prod.mk.injEq] at h
              obtain ⟨⟨-, h2⟩, -⟩ := h
              cases h2

/-! Claim theorems. -/

/-- C1 counterexample: the claim says a lookup of a TypeKey with no entry at
all returns a BindingNotFound error and never panics; on the code, `Resolve`
against an empty registry panics inside `getBinding`. -/
theorem C1_counterexample :
    Resolve 5 ⟨[], []⟩ (.ptrTo 0) [] = .panicked (.noBindingFor 0) := rfl

/-- C1 amended: for each resolution operation (Resolve, Call argument
resolution, Fill), a TypeKey with no entry at all makes the operation panic
inside `getBinding` (it does not return an error), while a TypeKey that has an
entry but no matching qualifier candidate yields the corresponding not-found
error return without panicking. -/
theorem C1_amended :
    (∀ fuel st t opt, lookupType st.ctr t = none →
      resolve fuel st (.ptrTo t) opt = .panicked (.noBindingFor t))
    ∧ (∀ fuel st t opt m, lookupType st.ctr t = some m →
      firstMatch m (toNames opt.name) = none →
      resolve fuel st (.ptrTo t) opt
        = .ok ((some (.noConcreteFound t), none), st))
    ∧ (∀ fuel st r fs opt t rest, LoadOption fs = .ok opt →
      r.inTypes = t :: rest → lookupType st.ctr t = none →
      Call (fuel + 1) st (.fn r) fs = .panicked (.noBindingFor t))
    ∧ (∀ fuel st r fs opt t rest m, LoadOption fs = .ok opt →
      r.inTypes = t :: rest → lookupType st.ctr t = some m →
      firstMatch m (toNames opt.name) = none →
      Call (fuel + 1) st (.fn r) fs = .ok (some (.noBindingFound t), st))
    ∧ (∀ fuel st f rest tg, f.tag = some tg →
      lookupType st.ctr f.ftype = none →
      Fill fuel st (.ptrStruct (f :: rest)) = .panicked (.noBindingFor f.ftype))
    ∧ (∀ fuel st f rest tg m, f.tag = some tg →
      lookupType st.ctr f.ftype = some m →
      firstMatch m (fillNames f.fname tg) = none →
      Fill fuel st (.ptrStruct (f :: rest))
        = .ok ((some (.cannotMakeField f.fname f.ftype (fillNames f.fname tg)),
            some (f :: rest)), st)) := by
  refine ⟨?_, ?_, ?_, ?_, ?_, ?_⟩
  · intro fuel st t opt hT
    simp only [resolve, getBinding, hT]
  · intro fuel st t opt m hT hF
    simp only [resolve, getBinding, hT, hF]
  · intro fuel st r fs opt t rest hL hIn hT
    simp only [Call, hL, hIn, argsLoop, getBinding, hT]
  · intro fuel st r fs opt t rest m hL hIn hT hF
    simp only [Call, hL, hIn, argsLoop, getBinding, hT, hF]
  · intro fuel st f rest tg hTag hT
    simp only [Fill, fillLoop, hTag, getBinding, hT]
  · intro fuel st f rest tg m hTag hT hF
    simp only [Fill, fillLoop, hTag, getBinding, hT, hF]

/-- C1 amended witness: concrete instances of each conjunct. -/
theorem C1_amended_witness :
    (resolve 3 ⟨[], []⟩ (.ptrTo 2) defaultOption = .panicked (.noBindingFor 2))
    ∧ (resolve 3 ⟨[(2, [("a".toList, ⟨.transientType, ⟨1, [], [2], fun _ => [⟨some 1, none⟩]⟩, none⟩)])], []⟩
        (.ptrTo 2) defaultOption
        = .ok ((some (.noConcreteFound 2), none),
            ⟨[(2, [("a".toList, ⟨.transientType, ⟨1, [], [2], fun _ => [⟨some 1, none⟩]⟩, none⟩)])], []⟩))
    ∧ (Call 3 ⟨[], []⟩ (.fn ⟨1, [4], [], fun _ => []⟩) [] = .panicked (.noBindingFor 4))
    ∧ (Fill 3 ⟨[], []⟩ (.ptrStruct [⟨"f".toList, 9, some "type".toList, none⟩])
        = .panicked (.noBindingFor 9)) :=
  ⟨C1_amended.1 3 ⟨[], []⟩ 2 defaultOption rfl,
   C1_amended.2.1 3 _ 2 defaultOption _ rfl rfl,
   C1_amended.2.2.1 2 ⟨[], []⟩ ⟨1, [4], [], fun _ => []⟩ [] defaultOption 4 [] rfl rfl rfl,
   C1_amended.2.2.2.2.1 3 ⟨[], []⟩ ⟨"f".toList, 9, some "type".toList, none⟩ [] "type".toList rfl rfl⟩

/-- C2 counterexample: registering a second (eager Singleton) resolver at an
occupied (TypeKey, Qualifier) pair whose immediate invocation fails returns
the invocation's error, not a DuplicateBinding error. -/
theorem C2_counterexample :
    bind 5 ⟨[(0, [([], ⟨.transientType, ⟨9, [], [0], fun _ => [⟨some 1, none⟩]⟩, none⟩)])], []⟩
      (.fn ⟨1, [], [0], fun _ => [⟨none, none⟩, ⟨none, some (.userErr 7)⟩]⟩)
      .singletonType defaultOption
    = .ok (some (.userErr 7),
        ⟨[(0, [([], ⟨.transientType, ⟨9, [], [0], fun _ => [⟨some 1, none⟩]⟩, none⟩)])], [1]⟩)
    ∧ Err.userErr 7 ≠ Err.alreadyExists 0 "type".toList :=
  ⟨rfl, by decide⟩

/-- C2 amended: a duplicate registration never overwrites and stores nothing:
for LazySingleton/Transient it fails with the DuplicateBinding error leaving
the state untouched; for eager Singleton the resolver is invoked first, and
the duplicate error is returned only when that invocation is error-free (an
invocation error is propagated instead); key-uniqueness (at most one Binding
per (TypeKey, Qualifier) pair) is preserved by every registration. -/
theorem C2_amended :
    (∀ fuel st r bt opt t0 ts m b, bt ≠ .singletonType → r.outs = t0 :: ts →
      lookupType st.ctr t0 = some m → lookupName m opt.name = some b →
      bind fuel st (.fn r) bt opt
        = .ok (some (.alreadyExists t0
            (if opt.name = [] then "type".toList else opt.name)), st))
    ∧ (∀ fuel st r opt t0 ts m v st' m' b', r.outs = t0 :: ts →
      lookupType st.ctr t0 = some m →
      invoke fuel st r opt = .ok ((v, none), st') →
      lookupType st'.ctr t0 = some m' → lookupName m' opt.name = some b' →
      bind fuel st (.fn r) .singletonType opt
        = .ok (some (.alreadyExists t0
            (if opt.name = [] then "type".toList else opt.name)), st'))
    ∧ (∀ fuel st r opt t0 ts m v e st', r.outs = t0 :: ts →
      lookupType st.ctr t0 = some m →
      invoke fuel st r opt = .ok ((v, some e), st') →
      bind fuel st (.fn r) .singletonType opt = .ok (some e, st'))
    ∧ (∀ fuel st arg bt opt e st', KeysOK st.ctr →
      bind fuel st arg bt opt = .ok (e, st') → KeysOK st'.ctr) := by
  refine ⟨?_, ?_, ?_, ?_⟩
  · intro fuel st r bt opt t0 ts m b hbt hOuts hT hN
    cases bt with
    | singletonType => exact absurd rfl hbt
    | delaySingletonType =>
      simp only [bind, hOuts, hT, bindStore, hN]
    | transientType =>
      simp only [bind, hOuts, hT, bindStore, hN]
  · intro fuel st r opt t0 ts m v st' m' b' hOuts hT hInv hT' hN'
    simp only [bind, hOuts, hT]
    rw [hInv]
    dsimp only
    simp only [bindStore, hOuts, hT', hN']
  · intro fuel st r opt t0 ts m v e st' hOuts hT hInv
    simp only [bind, hOuts, hT]
    rw [hInv]
  · intro fuel st arg bt opt e st' hk h
    exact bind_keysOK hk h

/-- C2 amended witness: a concrete duplicate Transient registration fails
with the already-exists error and leaves the registry untouched, and a
concrete registration preserves key-uniqueness. -/
theorem C2_amended_witness :
    (bind 3 ⟨[(0, [([], ⟨.transientType, ⟨9, [], [0], fun _ => [⟨some 1, none⟩]⟩, none⟩)])], []⟩
      (.fn ⟨1, [], [0], fun _ => [⟨some 2, none⟩]⟩) .transientType defaultOption
      = .ok (some (.alreadyExists 0 "type".toList),
          ⟨[(0, [([], ⟨.transientType, ⟨9, [], [0], fun _ => [⟨some 1, none⟩]⟩, none⟩)])], []⟩))
    ∧ KeysOK ([] : Ctr) :=
  ⟨C2_amended.1 3 _ _ .transientType defaultOption 0 [] _ _ (by decide) rfl rfl rfl,
   by constructor <;> simp [KeysOK]⟩

/-- Lazy binding whose resolver returns a non-nil value together with a
non-nil error, exercising the multiple assignment in `binding.make`. -/
def lazyErrResolver : Resolver :=
  ⟨5, [], [1], fun _ => [⟨some 42, none⟩, ⟨none, some (.userErr 3)⟩]⟩

/-- Registry holding `lazyErrResolver` as an uncached delayed singleton. -/
def lazyErrSt : St := ⟨[(1, [([], ⟨.delaySingletonType, lazyErrResolver, none⟩)])], []⟩

/-- State after the first (failing) make: the cache holds 42 regardless. -/
def lazyErrSt2 : St := ⟨[(1, [([], ⟨.delaySingletonType, lazyErrResolver, some 42⟩)])], [5]⟩

/-- C3 counterexample: a LazySingleton resolver returning (42, error) makes
the first Resolve fail — yet the cache is populated with 42, so a second
Resolve succeeds with 42 without retrying the resolver (the call trace does
not grow).  The claim says a failed make leaves the cache unset and the next
make retries. -/
theorem C3_counterexample :
    resolve 5 lazyErrSt (.ptrTo 1) defaultOption
      = .ok ((some (.userErr 3), none), lazyErrSt2)
    ∧ resolve 5 lazyErrSt2 (.ptrTo 1) defaultOption
      = .ok ((none, some 42), lazyErrSt2) := ⟨rfl, rfl⟩

/-- C3 amended: `make` returns the cached instance when present.  For a
LazySingleton with empty cache, the invocation's returned value is written to
the cache whether or not the invocation also returned an error: on success the
value is stored and returned; on failure the error is returned with the
returned value (nil in the typical failure case, in which case the cache is
effectively still unset and the resolver is retried, but a non-nil value is
cached despite the error).  A Transient binding passes the invocation through
and never writes the cache.  The cache write is visible to later lookups, so
a singleton whose first make succeeded yields the identical instance later. -/
theorem C3_amended :
    (∀ fuel st b t q opt x, b.concrete = some x →
      make (fuel + 1) st b t q opt = .ok ((some x, none), st))
    ∧ (∀ fuel st b t q opt v st', b.concrete = none →
      b.bindType = .delaySingletonType →
      invoke fuel st b.resolver opt = .ok ((v, none), st') →
      make (fuel + 1) st b t q opt
        = .ok ((v, none), ⟨setConcrete st'.ctr t q v, st'.calls⟩))
    ∧ (∀ fuel st b t q opt v e st', b.concrete = none →
      b.bindType = .delaySingletonType →
      invoke fuel st b.resolver opt = .ok ((v, some e), st') →
      make (fuel + 1) st b t q opt
        = .ok ((none, some e), ⟨setConcrete st'.ctr t q v, st'.calls⟩))
    ∧ (∀ fuel st b t q opt, b.concrete = none → b.bindType = .transientType →
      make (fuel + 1) st b t q opt = invoke fuel st b.resolver opt)
    ∧ (∀ c t q m b v, lookupType c t = some m → lookupName m q = some b →
      lookupType (setConcrete c t q v) t = some (setName m q { b with concrete := v })
      ∧ lookupName (setName m q { b with concrete := v }) q
        = some { b with concrete := v }) := by
  refine ⟨?_, ?_, ?_, ?_, ?_⟩
  · intro fuel st b t q opt x hx
    simp only [make, hx]
  · intro fuel st b t q opt v st' hCon hbt hInv
    simp only [make, hCon, hbt, if_true]
    rw [hInv]
  · intro fuel st b t q opt v e st' hCon hbt hInv
    simp only [make, hCon, hbt, if_true]
    rw [hInv]
  · intro fuel st b t q opt hCon hbt
    simp only [make, hCon, hbt]
    rw [if_neg (by simp)]
  · intro c t q m b v hT hN
    constructor
    · simp only [setConcrete, hT, hN]
      exact lookupType_setType_self c t _
    · exact lookupName_setName_self m q _

/-- Lazy binding whose resolver succeeds with 42. -/
def lazyOkResolver : Resolver := ⟨5, [], [1], fun _ => [⟨some 42, none⟩]⟩

/-- Registry holding `lazyOkResolver` as an uncached delayed singleton. -/
def lazyOkSt : St := ⟨[(1, [([], ⟨.delaySingletonType, lazyOkResolver, none⟩)])], []⟩

/-- C3 amended witness: a concrete cached make, and a concrete first make of
a delayed singleton that stores its result. -/
theorem C3_amended_witness :
    (make 3 lazyOkSt ⟨.delaySingletonType, lazyOkResolver, some 9⟩ 1 [] defaultOption
      = .ok ((some 9, none), lazyOkSt))
    ∧ (make 3 lazyOkSt ⟨.delaySingletonType, lazyOkResolver, none⟩ 1 [] defaultOption
      = .ok ((some 42, none), ⟨setConcrete lazyOkSt.ctr 1 [] (some 42), [5]⟩)) :=
  ⟨C3_amended.1 2 lazyOkSt _ 1 [] defaultOption 9 rfl,
   C3_amended.2.1 2 lazyOkSt _ 1 [] defaultOption (some 42) ⟨lazyOkSt.ctr, [5]⟩ rfl rfl rfl⟩

/-- C4 counterexample: registering a zero-output resolver with the Transient
lifecycle panics at `reflect.Type.Out(0)` instead of returning an
InvalidResolverShape error. -/
theorem C4_counterexample :
    bind 3 ⟨[], []⟩ (.fn ⟨2, [], [], fun _ => []⟩) .transientType defaultOption
      = .panicked .outOfRange := rfl

/-- C4 amended: Register validates only that the argument is callable (a
non-function fails for every lifecycle).  Output arity is checked solely
through invocation: an eager Singleton registration surfaces the
InvalidResolverShape error for zero or three-plus actual outputs, while a
LazySingleton/Transient registration panics on a zero-output resolver and
succeeds — storing the binding — for any other output arity, deferring shape
errors to the first invocation. -/
theorem C4_amended :
    (∀ fuel st bt opt, bind fuel st .notFn bt opt = .ok (some .resolverNotFunc, st))
    ∧ (∀ fuel st r bt opt, r.outs = [] → bt ≠ .singletonType →
      bind fuel st (.fn r) bt opt = .panicked .outOfRange)
    ∧ (∀ fuel st r opt args st1, r.outs = [] →
      argsLoop fuel st r.inTypes opt = .ok (.ok args, st1) → r.body args = [] →
      bind (fuel + 1) st (.fn r) .singletonType opt
        = .ok (some .invalidSignature, ⟨st1.ctr, st1.calls ++ [r.id]⟩))
    ∧ (∀ fuel st r opt t0 ts args st1 v0 v1 v2 tl, r.outs = t0 :: ts →
      lookupType st.ctr t0 = none →
      argsLoop fuel (⟨setType st.ctr t0 [], st.calls⟩ : St) r.inTypes opt
        = .ok (.ok args, st1) →
      r.body args = v0 :: v1 :: v2 :: tl →
      bind (fuel + 1) st (.fn r) .singletonType opt
        = .ok (some .invalidSignature, ⟨st1.ctr, st1.calls ++ [r.id]⟩))
    ∧ (∀ fuel st r bt opt t0 ts, bt ≠ .singletonType → r.outs = t0 :: ts →
      lookupType st.ctr t0 = none →
      bind fuel st (.fn r) bt opt
        = .ok (none,
            ⟨setType (setType st.ctr t0 []) t0 [(opt.name, ⟨bt, r, none⟩)],
              st.calls⟩)) := by
  refine ⟨?_, ?_, ?_, ?_, ?_⟩
  · intro fuel st bt opt
    rfl
  · intro fuel st r bt opt hOuts hbt
    cases bt with
    | singletonType => exact absurd rfl hbt
    | delaySingletonType => simp only [bind, hOuts, bindStore]
    | transientType => simp only [bind, hOuts, bindStore]
  · intro fuel st r opt args st1 hOuts hArgs hBody
    simp only [bind, hOuts, invoke]
    rw [hArgs]
    dsimp only
    rw [hBody]
  · intro fuel st r opt t0 ts args st1 v0 v1 v2 tl hOuts hT hArgs hBody
    simp only [bind, hOuts, hT, invoke]
    rw [hArgs]
    dsimp only
    rw [hBody]
  · intro fuel st r bt opt t0 ts hbt hOuts hT
    cases bt with
    | singletonType => exact absurd rfl hbt
    | delaySingletonType =>
      simp only [bind, hOuts, hT, bindStore, lookupType_setType_self,
        lookupName, setName]
    | transientType =>
      simp only [bind, hOuts, hT, bindStore, lookupType_setType_self,
        lookupName, setName]

/-- C4 amended witness: concrete instances — a zero-output eager Singleton
registration returns the invalid-signature error, and a three-output
Transient registration succeeds. -/
theorem C4_amended_witness :
    (bind 2 ⟨[], []⟩ (.fn ⟨2, [], [], fun _ => []⟩) .singletonType defaultOption
      = .ok (some .invalidSignature, ⟨[], [2]⟩))
    ∧ (bind 2 ⟨[], []⟩
        (.fn ⟨3, [], [4], fun _ => [⟨some 1, none⟩, ⟨some 2, none⟩, ⟨some 3, none⟩]⟩)
        .transientType defaultOption
      = .ok (none,
          ⟨setType (setType ([] : Ctr) 4 []) 4
            [([], ⟨.transientType,
              ⟨3, [], [4], fun _ => [⟨some 1, none⟩, ⟨some 2, none⟩, ⟨some 3, none⟩]⟩,
              none⟩)], []⟩)) :=
  ⟨C4_amended.2.2.1 1 ⟨[], []⟩ ⟨2, [], [], fun _ => []⟩ defaultOption [] ⟨[], []⟩
      rfl rfl rfl,
   C4_amended.2.2.2.2 2 ⟨[], []⟩ _ .transientType defaultOption 4 [] (by decide)
      rfl rfl⟩

/-- C5 counterexample: an eager Singleton registration on an empty registry
whose resolver fails propagates the error, but the registry is not left
unchanged — an empty qualifier map for the output TypeKey was created before
the invocation and persists, observably switching later lookups of that
TypeKey from a panic to a not-found result. -/
theorem C5_counterexample :
    bind 3 ⟨[], []⟩
      (.fn ⟨1, [], [7], fun _ => [⟨none, none⟩, ⟨none, some (.userErr 9)⟩]⟩)
      .singletonType defaultOption
      = .ok (some (.userErr 9), ⟨[(7, [])], [1]⟩)
    ∧ ([(7, ([] : QMap))] : Ctr) ≠ ([] : Ctr)
    ∧ getBinding ([] : Ctr) 7 (toNames []) = .panicked 7
    ∧ getBinding ([(7, [])] : Ctr) 7 (toNames []) = .notFound :=
  ⟨rfl, by simp, rfl, rfl⟩

/-- C5 amended: for an eager Singleton, the resolver is invoked during
Register itself (an error-free invocation appends its identifier to the call
trace before Register returns, and a successful registration stores the
cached binding); a failing invocation aborts registration with that error and
stores no binding — but the empty qualifier map inserted for the output
TypeKey before the invocation remains, so the registry is not left fully
unchanged (an empty inner map makes later lookups of the TypeKey report
not-found instead of panicking). -/
theorem C5_amended :
    (∀ fuel st r opt t0 ts v e st', r.outs = t0 :: ts →
      lookupType st.ctr t0 = none →
      invoke fuel (⟨setType st.ctr t0 [], st.calls⟩ : St) r opt
        = .ok ((v, some e), st') →
      bind fuel st (.fn r) .singletonType opt = .ok (some e, st'))
    ∧ (∀ fuel st r opt t0 ts v st' m, r.outs = t0 :: ts →
      lookupType st.ctr t0 = none →
      invoke fuel (⟨setType st.ctr t0 [], st.calls⟩ : St) r opt
        = .ok ((v, none), st') →
      lookupType st'.ctr t0 = some m → lookupName m opt.name = none →
      bind fuel st (.fn r) .singletonType opt
        = .ok (none,
            ⟨setType st'.ctr t0 (setName m opt.name ⟨.singletonType, r, v⟩),
              st'.calls⟩))
    ∧ (∀ fuel st r opt v st', invoke fuel st r opt = .ok ((v, none), st') →
      ∃ pre, st'.calls = pre ++ [r.id])
    ∧ (∀ c t0, lookupType (setType c t0 []) t0 = some ([] : QMap)) := by
  refine ⟨?_, ?_, ?_, ?_⟩
  · intro fuel st r opt t0 ts v e st' hOuts hT hInv
    simp only [bind, hOuts, hT]
    rw [hInv]
  · intro fuel st r opt t0 ts v st' m hOuts hT hInv hT' hN'
    simp only [bind, hOuts, hT]
    rw [hInv]
    dsimp only
    simp only [bindStore, hOuts, hT', hN']
  · intro fuel st r opt v st' hInv
    exact invoke_ok_appends hInv
  · intro c t0
    exact lookupType_setType_self c t0 []

/-- C5 amended witness: the failing-resolver instance propagates the error
with the empty entry left behind, and a concrete error-free invocation shows
the call-trace append. -/
theorem C5_amended_witness :
    (bind 3 ⟨[], []⟩
      (.fn ⟨1, [], [7], fun _ => [⟨none, none⟩, ⟨none, some (.userErr 9)⟩]⟩)
      .singletonType defaultOption = .ok (some (.userErr 9), ⟨[(7, [])], [1]⟩))
    ∧ (∃ pre, ([3] : List Nat) = pre ++ [3]) :=
  ⟨C5_amended.1 3 ⟨[], []⟩ _ defaultOption 7 [] none (.userErr 9) ⟨[(7, [])], [1]⟩
      rfl rfl rfl,
   C5_amended.2.2.1 2 ⟨[], []⟩ ⟨3, [], [4], fun _ => [⟨some 1, none⟩]⟩
      defaultOption (some 1) ⟨[], [3]⟩ rfl⟩

/-- C7: once the arguments resolve, the Invoker interprets the executed
callable's outputs exactly as specified: one output is returned with no
error; two outputs whose second is a non-nil error yield the first value
paired with that error, and with no error when the second is none; any other
output arity yields the invalid-signature error instead of a value. -/
theorem C7_invoke_interpretation :
    (∀ fuel st f opt args st1 v0,
      argsLoop fuel st f.inTypes opt = .ok (.ok args, st1) →
      f.body args = [v0] →
      invoke (fuel + 1) st f opt
        = .ok ((v0.value, none), ⟨st1.ctr, st1.calls ++ [f.id]⟩))
    ∧ (∀ fuel st f opt args st1 v0 v1 e,
      argsLoop fuel st f.inTypes opt = .ok (.ok args, st1) →
      f.body args = [v0, v1] → v1.asError = some e →
      invoke (fuel + 1) st f opt
        = .ok ((v0.value, some e), ⟨st1.ctr, st1.calls ++ [f.id]⟩))
    ∧ (∀ fuel st f opt args st1 v0 v1,
      argsLoop fuel st f.inTypes opt = .ok (.ok args, st1) →
      f.body args = [v0, v1] → v1.asError = none →
      invoke (fuel + 1) st f opt
        = .ok ((v0.value, none), ⟨st1.ctr, st1.calls ++ [f.id]⟩))
    ∧ (∀ fuel st f opt args st1,
      argsLoop fuel st f.inTypes opt = .ok (.ok args, st1) →
      f.body args = [] →
      invoke (fuel + 1) st f opt
        = .ok ((none, some .invalidSignature), ⟨st1.ctr, st1.calls ++ [f.id]⟩))
    ∧ (∀ fuel st f opt args st1 v0 v1 v2 tl,
      argsLoop fuel st f.inTypes opt = .ok (.ok args, st1) →
      f.body args = v0 :: v1 :: v2 :: tl →
      invoke (fuel + 1) st f opt
        = .ok ((none, some .invalidSignature), ⟨st1.ctr, st1.calls ++ [f.id]⟩)) := by
  refine ⟨?_, ?_, ?_, ?_, ?_⟩
  · intro fuel st f opt args st1 v0 hArgs hBody
    simp only [invoke]
    rw [hArgs]
    dsimp only
    rw [hBody]
  · intro fuel st f opt args st1 v0 v1 e hArgs hBody hE
    simp only [invoke]
    rw [hArgs]
    dsimp only
    rw [hBody]
    dsimp only
    rw [hE]
  · intro fuel st f opt args st1 v0 v1 hArgs hBody hE
    simp only [invoke]
    rw [hArgs]
    dsimp only
    rw [hBody]
    dsimp only
    rw [hE]
  · intro fuel st f opt args st1 hArgs hBody
    simp only [invoke]
    rw [hArgs]
    dsimp only
    rw [hBody]
  · intro fuel st f opt args st1 v0 v1 v2 tl hArgs hBody
    simp only [invoke]
    rw [hArgs]
    dsimp only
    rw [hBody]

/-- C7 witness: concrete invocations for the one-output, two-output-with-
error, and zero-output interpretations. -/
theorem C7_invoke_interpretation_witness :
    (invoke 2 ⟨[], []⟩ ⟨7, [], [3], fun _ => [⟨some 9, none⟩]⟩ defaultOption
      = .ok ((some 9, none), ⟨[], [7]⟩))
    ∧ (invoke 2 ⟨[], []⟩
        ⟨7, [], [3], fun _ => [⟨some 9, none⟩, ⟨none, some (.userErr 2)⟩]⟩
        defaultOption = .ok ((some 9, some (.userErr 2)), ⟨[], [7]⟩))
    ∧ (invoke 2 ⟨[], []⟩ ⟨7, [], [], fun _ => []⟩ defaultOption
      = .ok ((none, some .invalidSignature), ⟨[], [7]⟩)) :=
  ⟨C7_invoke_interpretation.1 1 ⟨[], []⟩ ⟨7, [], [3], fun _ => [⟨some 9, none⟩]⟩
     defaultOption [] ⟨[], []⟩ ⟨some 9, none⟩ rfl rfl,
   C7_invoke_interpretation.2.1 1 ⟨[], []⟩
     ⟨7, [], [3], fun _ => [⟨some 9, none⟩, ⟨none, some (.userErr 2)⟩]⟩
     defaultOption [] ⟨[], []⟩ ⟨some 9, none⟩ ⟨none, some (.userErr 2)⟩
     (.userErr 2) rfl rfl rfl,
   C7_invoke_interpretation.2.2.2.1 1 ⟨[], []⟩ ⟨7, [], [], fun _ => []⟩
     defaultOption [] ⟨[], []⟩ rfl rfl⟩

/-- C8 counterexample: when an annotated field's type has no entry at all,
`Fill` panics inside `getBinding` instead of returning a
FieldInjectionFailure error. -/
theorem C8_counterexample :
    Fill 3 ⟨[], []⟩ (.ptrStruct [⟨"f".toList, 2, some "type".toList, none⟩])
      = .panicked (.noBindingFor 2) := rfl

/-- C8 amended: when an annotated field's type has at least one registered
qualifier but none of the field's candidates match, `Fill` returns the
FieldInjectionFailure error naming the field and every candidate attempted;
fields assigned before the failing field remain assigned (no rollback), and
neither the failing field nor any later field is assigned.  When the field's
type has no entry at all, `Fill` panics instead of returning the error. -/
theorem C8_amended :
    (∀ fuel st f rest tg m, f.tag = some tg →
      lookupType st.ctr f.ftype = some m →
      firstMatch m (fillNames f.fname tg) = none →
      Fill fuel st (.ptrStruct (f :: rest))
        = .ok ((some (.cannotMakeField f.fname f.ftype (fillNames f.fname tg)),
            some (f :: rest)), st))
    ∧ (∀ fuel st g f rest tg1 tg2 q b x e2 st1 m1,
      g.tag = some tg1 →
      getBinding st.ctr g.ftype (fillNames g.fname tg1) = .found q b →
      make fuel st b g.ftype q defaultOption = .ok ((some x, e2), st1) →
      f.tag = some tg2 →
      lookupType st1.ctr f.ftype = some m1 →
      firstMatch m1 (fillNames f.fname tg2) = none →
      Fill fuel st (.ptrStruct (g :: f :: rest))
        = .ok ((some (.cannotMakeField f.fname f.ftype (fillNames f.fname tg2)),
            some ({ g with value := some x } :: f :: rest)), st1))
    ∧ (∀ fuel st f rest tg, f.tag = some tg →
      lookupType st.ctr f.ftype = none →
      Fill fuel st (.ptrStruct (f :: rest))
        = .panicked (.noBindingFor f.ftype)) := by
  refine ⟨?_, ?_, ?_⟩
  · intro fuel st f rest tg m hTag hT hF
    simp only [Fill, fillLoop, hTag, getBinding, hT, hF]
  · intro fuel st g f rest tg1 tg2 q b x e2 st1 m1 hTag1 hG hMake hTag2 hT hF
    simp only [Fill, fillLoop, hTag1]
    rw [hG]
    dsimp only
    rw [hMake]
    dsimp only
    simp only [fillLoop, hTag2, getBinding, hT, hF]
  · intro fuel st f rest tg hTag hT
    simp only [Fill, fillLoop, hTag, getBinding, hT]

/-- Two-field struct scenario for the C8 witness: the first field's type is
registered and resolvable, the second field's type is registered only under a
different qualifier. -/
def c8St : St :=
  ⟨[(2, [([], ⟨.transientType, ⟨6, [], [2], fun _ => [⟨some 5, none⟩]⟩, none⟩)]),
    (3, [("named".toList, ⟨.transientType, ⟨8, [], [3], fun _ => [⟨some 1, none⟩]⟩, none⟩)])], []⟩

/-- C8 amended witness: the resolvable first field stays assigned while the
unmatched second field produces the error naming it and its candidates. -/
theorem C8_amended_witness :
    Fill 4 c8St (.ptrStruct [⟨"g".toList, 2, some "type".toList, none⟩,
        ⟨"f".toList, 3, some "type".toList, none⟩])
      = .ok ((some (.cannotMakeField "f".toList 3 [[]]),
          some [⟨"g".toList, 2, some "type".toList, some 5⟩,
            ⟨"f".toList, 3, some "type".toList, none⟩]), ⟨c8St.ctr, [6]⟩) :=
  C8_amended.2.1 4 c8St ⟨"g".toList, 2, some "type".toList, none⟩
    ⟨"f".toList, 3, some "type".toList, none⟩ [] "type".toList "type".toList
    [] _ 5 none ⟨c8St.ctr, [6]⟩ _ rfl rfl rfl rfl rfl rfl

/-- C9 counterexample: a matched binding whose make returns both a value and
an error does not make `Fill` fail — the error is discarded, the value is
assigned, and `Fill` reports success. -/
theorem C9_counterexample :
    Fill 5 ⟨[(2, [([], ⟨.transientType,
        ⟨6, [], [2], fun _ => [⟨some 5, none⟩, ⟨none, some (.userErr 4)⟩]⟩,
        none⟩)])], []⟩
      (.ptrStruct [⟨"f".toList, 2, some "type".toList, none⟩])
      = .ok ((none, some [⟨"f".toList, 2, some "type".toList, some 5⟩]),
          ⟨[(2, [([], ⟨.transientType,
            ⟨6, [], [2], fun _ => [⟨some 5, none⟩, ⟨none, some (.userErr 4)⟩]⟩,
            none⟩)])], [6]⟩) := rfl

/-- C9 amended: `Fill` discards the error returned by a matched binding's
make: when the instance returned alongside the error is non-nil it is
assigned into the field and the loop continues as if the make had succeeded
(the error is lost and `Fill` can return overall success); when the instance
is nil, `Fill` panics in the reflect assignment instead of returning the
error. -/
theorem C9_amended :
    (∀ fuel st f tg q b x e st1, f.tag = some tg →
      getBinding st.ctr f.ftype (fillNames f.fname tg) = .found q b →
      make fuel st b f.ftype q defaultOption = .ok ((some x, some e), st1) →
      Fill fuel st (.ptrStruct [f])
        = .ok ((none, some [{ f with value := some x }]), st1))
    ∧ (∀ fuel st f rest tg q b e st1, f.tag = some tg →
      getBinding st.ctr f.ftype (fillNames f.fname tg) = .found q b →
      make fuel st b f.ftype q defaultOption = .ok ((none, some e), st1) →
      Fill fuel st (.ptrStruct (f :: rest)) = .panicked .setZeroValue) := by
  constructor
  · intro fuel st f tg q b x e st1 hTag hG hMake
    simp only [Fill, fillLoop, hTag]
    rw [hG]
    dsimp only
    rw [hMake]
  · intro fuel st f rest tg q b e st1 hTag hG hMake
    simp only [Fill, fillLoop, hTag]
    rw [hG]
    dsimp only
    rw [hMake]

/-- Registry for the C9 witness: one transient binding whose resolver
returns value 5 together with an error. -/
def c9St : St :=
  ⟨[(2, [([], ⟨.transientType,
    ⟨6, [], [2], fun _ => [⟨some 5, none⟩, ⟨none, some (.userErr 4)⟩]⟩,
    none⟩)])], []⟩

/-- C9 amended witness: the concrete discarded-error `Fill`. -/
theorem C9_amended_witness :
    Fill 4 c9St (.ptrStruct [⟨"f".toList, 2, some "type".toList, none⟩])
      = .ok ((none, some [⟨"f".toList, 2, some "type".toList, some 5⟩]),
          ⟨c9St.ctr, [6]⟩) :=
  C9_amended.1 4 c9St ⟨"f".toList, 2, some "type".toList, none⟩ "type".toList
    [] _ 5 (.userErr 4) ⟨c9St.ctr, [6]⟩ rfl rfl rfl

/-- C10: calling the public `Singleton` (or `NamedSingleton`) with no option
arguments registers a delayed (LazySingleton) binding — the default per-call
option has delay true and no exported option constructor can change it — and
such a registration never executes the resolver (the call trace is
unchanged). -/
theorem C10_Singleton_defaults_lazy :
    (∀ fuel st arg,
      Singleton fuel st arg [] = bind fuel st arg .delaySingletonType defaultOption)
    ∧ (∀ fuel st name arg, NamedSingleton fuel st name arg []
        = bind fuel st arg .delaySingletonType ⟨name, true⟩)
    ∧ (∀ fuel st arg bt opt e st', bt ≠ .singletonType →
      bind fuel st arg bt opt = .ok (e, st') → st'.calls = st.calls) := by
  refine ⟨?_, ?_, ?_⟩
  · intro fuel st arg
    rfl
  · intro fuel st name arg
    rfl
  · intro fuel st arg bt opt e st' hbt h
    cases arg with
    | notFn =>
      simp only [bind, Exec.ok.injEq, Prod.mk.injEq] at h
      obtain ⟨-, rfl⟩ := h
      rfl
    | fn r =>
      have hstore : ∀ st1 : St, st1.calls = st.calls →
          bindStore st1 r bt opt none = .ok (e, st') → st'.calls = st.calls := by
        intro st1 hcalls hS
        cases hOuts : r.outs with
        | nil => rw [bindStore, hOuts] at hS; simp at hS
        | cons t0 ts =>
          rw [bindStore, hOuts] at hS
          dsimp only at hS
          cases hT : lookupType st1.ctr t0 with
          | none => rw [hT] at hS; simp at hS
          | some m =>
            rw [hT] at hS
            dsimp only at hS
            cases hN : lookupName m opt.name with
            | some b =>
              rw [hN] at hS
              simp only [Exec.ok.injEq, Prod.mk.injEq] at hS
              obtain ⟨-, rfl⟩ := hS
              exact hcalls
            | none =>
              rw [hN] at hS
              simp only [Exec.ok.injEq, Prod.mk.injEq] at hS
              obtain ⟨-, rfl⟩ := hS
              exact hcalls
      simp only [bind] at h
      cases bt with
      | singletonType => exact absurd rfl hbt
      | delaySingletonType =>
        refine hstore _ ?_ h
        cases hOuts : r.outs with
        | nil => rfl
        | cons t0 ts =>
          cases hT : lookupType st.ctr t0 with
          | some m => simp only [hT]
          | none => simp only [hT]
      | transientType =>
        refine hstore _ ?_ h
        cases hOuts : r.outs with
        | nil => rfl
        | cons t0 ts =>
          cases hT : lookupType st.ctr t0 with
          | some m => simp only [hT]
          | none => simp only [hT]

/-- C10 witness: the concrete no-options `Singleton` equals the delayed bind,
and a concrete delayed registration leaves the call trace unchanged. -/
theorem C10_Singleton_defaults_lazy_witness :
    (Singleton 3 ⟨[], []⟩ (.fn ⟨1, [], [4], fun _ => [⟨some 2, none⟩]⟩) []
      = bind 3 ⟨[], []⟩ (.fn ⟨1, [], [4], fun _ => [⟨some 2, none⟩]⟩)
          .delaySingletonType defaultOption)
    ∧ ((⟨[(4, [([], ⟨.delaySingletonType, ⟨1, [], [4], fun _ => [⟨some 2, none⟩]⟩,
          none⟩)])], []⟩ : St).calls = (⟨[], []⟩ : St).calls) :=
  ⟨C10_Singleton_defaults_lazy.1 3 ⟨[], []⟩ _,
   C10_Singleton_defaults_lazy.2.2 3 ⟨[], []⟩
     (.fn ⟨1, [], [4], fun _ => [⟨some 2, none⟩]⟩) .delaySingletonType
     defaultOption none _ (by decide) rfl⟩

end Cntr
